import Mathlib

/-!
# Verification of the Chaikin curve-refinement animator

Shallow embedding of the core of the `chaikin` repository
(`src/chaikin.rs`, `src/point.rs`): the Chaikin corner-cutting
subdivision `apply_chaikin`, the frame interpolation `interpolate`
(equal- and unequal-length cases), the `step` state machine and
`set_points`.

`f64` coordinates are modelled by exact rationals (`ℚ`); all the
geometric quantities appearing in the verified claims are dyadic, where
`f64` arithmetic is exact.  For `set_points`, whose behaviour depends on
IEEE-754 equality (`NaN ≠ NaN`), a second model `PointF` keeps an
explicit NaN constructor and reproduces Rust's derived `PartialEq`.
The wall-clock delta sampled by `step` (`Instant::now`) is passed as an
explicit parameter `dt`, as the design notes of the implementation
suggest for deterministic testing.
-/

namespace Chaikin

/-- A 2D point with an RGB colour tag (`src/point.rs`, struct `Point`);
`position : Vector2<f64>` is flattened to the two coordinates. -/
structure Point where
  x : ℚ
  y : ℚ
  color : ℕ × ℕ × ℕ
deriving DecidableEq, Repr

/-- The default used by total `getD` indexing (the Rust code indexes
only in bounds, which the safety theorems prove). -/
def pdef : Point := ⟨0, 0, (0, 0, 0)⟩

/-- The Q point of a segment, `0.75*p0 + 0.25*p1`
(`src/chaikin.rs` lines 96-103). -/
def qPoint (p0 p1 : Point) : Point :=
  ⟨3/4 * p0.x + 1/4 * p1.x, 3/4 * p0.y + 1/4 * p1.y, (255, 255, 255)⟩

/-- The R point of a segment, `0.25*p0 + 0.75*p1`
(`src/chaikin.rs` lines 105-112). -/
def rPoint (p0 p1 : Point) : Point :=
  ⟨1/4 * p0.x + 3/4 * p1.x, 1/4 * p0.y + 3/4 * p1.y, (255, 255, 255)⟩

/-- The loop of `apply_chaikin`: for each consecutive pair, push the Q
point then the R point (`src/chaikin.rs` lines 92-113). -/
def chaikinPairs : List Point → List Point
  | p0 :: p1 :: rest => qPoint p0 p1 :: rPoint p0 p1 :: chaikinPairs (p1 :: rest)
  | _ => []

/-- One step of Chaikin subdivision for an open polyline
(`src/chaikin.rs`, `apply_chaikin`, lines 81-119): identity on fewer
than 2 points, otherwise first point, Q/R per segment, last point. -/
def apply_chaikin (points : List Point) : List Point :=
  if points.length < 2 then points
  else points.head?.toList ++ chaikinPairs points ++ points.getLast?.toList

/-- `i as f64 / (len - 1) as f64` — normalized position of index `i` in
a sequence of length `len` (division by zero yields 0 in `ℚ`, where the
source produces a NaN that the `local_t` guard then discards on the
same path the model takes). -/
def normPos (i len : ℕ) : ℚ := (i : ℚ) / ((len - 1 : ℕ) : ℚ)

/-- `(pos * (sparse_len - 1) as f64).floor() as usize`
(`src/chaikin.rs` lines 181, 218). -/
def bracketIdx (pos : ℚ) (sparseLen : ℕ) : ℕ :=
  (⌊pos * ((sparseLen - 1 : ℕ) : ℚ)⌋).toNat

/-- `(idx + 1).min(sparse_len - 1)` (`src/chaikin.rs` lines 182, 219). -/
def bracketIdx2 (pos : ℚ) (sparseLen : ℕ) : ℕ :=
  min (bracketIdx pos sparseLen + 1) (sparseLen - 1)

/-- The local interpolation factor with its division-by-zero guard
(`src/chaikin.rs` lines 187-192, 224-229). -/
def localT (pos : ℚ) (sparseLen : ℕ) : ℚ :=
  let p := normPos (bracketIdx pos sparseLen) sparseLen
  let p2 := normPos (bracketIdx2 pos sparseLen) sparseLen
  if p < p2 then (pos - p) / (p2 - p) else 0

/-- Resampling a virtual position at normalized position `pos` from the
sparser sequence (`src/chaikin.rs` lines 194-200, 231-237). -/
def resample (sparse : List Point) (pos : ℚ) : ℚ × ℚ :=
  let p1 := sparse.getD (bracketIdx pos sparse.length) pdef
  let p2 := sparse.getD (bracketIdx2 pos sparse.length) pdef
  let lt := localT pos sparse.length
  (p1.x + lt * (p2.x - p1.x), p1.y + lt * (p2.y - p1.y))

/-- Interpolation between point sets of different cardinalities
(`src/chaikin.rs`, `interpolate_different_point_counts`,
lines 155-263). -/
def interpolate_different_point_counts (cur nxt : List Point) (t : ℚ) : List Point :=
  let c0 := cur.getD 0 pdef
  let n0 := nxt.getD 0 pdef
  let first : Point :=
    ⟨c0.x + t * (n0.x - c0.x), c0.y + t * (n0.y - c0.y), (255, 255, 255)⟩
  let cl := cur.length
  let nl := nxt.length
  let interior : List Point :=
    if cl > nl then
      (List.range' 1 (cl - 2)).map (fun i =>
        let pos := normPos i cl
        let tgt := resample nxt pos
        let c := cur.getD i pdef
        ⟨c.x + t * (tgt.1 - c.x), c.y + t * (tgt.2 - c.y), (255, 255, 255)⟩)
    else
      (List.range' 1 (nl - 2)).map (fun i =>
        let pos := normPos i nl
        let src := resample cur pos
        let n := nxt.getD i pdef
        ⟨src.1 + t * (n.x - src.1), src.2 + t * (n.y - src.2), (255, 255, 255)⟩)
  let cL := cur.getD (cl - 1) pdef
  let nL := nxt.getD (nl - 1) pdef
  let last : Point :=
    ⟨cL.x + t * (nL.x - cL.x), cL.y + t * (nL.y - cL.y), (255, 255, 255)⟩
  first :: (interior ++ [last])

/-- Interpolation between `current` and `next` at animation fraction `t`
(`src/chaikin.rs`, `interpolate`, lines 122-152): empty fallbacks, then
the unequal-length case, else elementwise lerp keeping the colour of the
`current` point. -/
def interpolate (cur nxt : List Point) (t : ℚ) : List Point :=
  if cur.isEmpty then nxt
  else if nxt.isEmpty then cur
  else if cur.length ≠ nxt.length then interpolate_different_point_counts cur nxt t
  else
    (cur.zip nxt).map (fun pr =>
      ⟨pr.1.x + t * (pr.2.x - pr.1.x), pr.1.y + t * (pr.2.y - pr.1.y), pr.1.color⟩)

/-- Frame assembly (`src/chaikin.rs`, `create_visualization`,
lines 266-288): original control points re-tagged red, then the
animation points re-tagged green. -/
def create_visualization (original pts : List Point) : List Point :=
  original.map (fun p => ⟨p.x, p.y, (255, 0, 0)⟩) ++
    pts.map (fun p => ⟨p.x, p.y, (0, 255, 0)⟩)

/-- The animator state (`src/chaikin.rs`, struct `Chaikin`,
lines 4-13).  The monotonic-clock field `last_update` is replaced by an
explicit elapsed-time argument `dt` to `step`, as the design notes
prescribe for deterministic modelling. -/
structure State where
  originalPoints : List Point
  currentPoints : List Point
  nextPoints : List Point
  animationProgress : ℚ
  currentStep : ℕ
  maxSteps : ℕ
  animationSpeed : ℚ
deriving DecidableEq, Repr

/-- `Chaikin::new` (`src/chaikin.rs` lines 16-27). -/
def State.new (points : List Point) : State :=
  ⟨points, points, [], 0, 0, 7, 1⟩

/-- The progress/boundary part of `step`
(`src/chaikin.rs` lines 39-50): advance `animation_progress` by
`dt * animation_speed`; on reaching 1.0 wrap it to 0, advance the step
counter modulo `max_steps`, promote `next` to `current`, clear `next`. -/
def advanceProgress (dt : ℚ) (s : State) : State :=
  let p := s.animationProgress + dt * s.animationSpeed
  if 1 ≤ p then
    { s with animationProgress := 0,
             currentStep := (s.currentStep + 1) % s.maxSteps,
             currentPoints := s.nextPoints,
             nextPoints := [] }
  else { s with animationProgress := p }

/-- The lazy recomputation of `next_points`
(`src/chaikin.rs` lines 52-71): at step 0 reset `current` to `original`
and refine it; at the last step animate back to `original`; otherwise
refine `current`. -/
def computeNext (s : State) : State :=
  if s.nextPoints.isEmpty then
    if s.currentStep = 0 then
      { s with currentPoints := s.originalPoints,
               nextPoints :=
                 if 2 ≤ s.originalPoints.length then apply_chaikin s.originalPoints
                 else s.originalPoints }
    else if s.currentStep = s.maxSteps - 1 then
      { s with nextPoints := s.originalPoints }
    else { s with nextPoints := apply_chaikin s.currentPoints }
  else s

/-- `Chaikin::step` (`src/chaikin.rs` lines 29-78), returning the
mutated state together with the rendered frame.  With fewer than 2
original points it returns `original` untouched before any mutation. -/
def stepFull (dt : ℚ) (s : State) : State × List Point :=
  if s.originalPoints.length < 2 then (s, s.originalPoints)
  else
    let s2 := computeNext (advanceProgress dt s)
    (s2, create_visualization s2.originalPoints
          (interpolate s2.currentPoints s2.nextPoints s2.animationProgress))

/-- The state part of `step`. -/
def stepState (dt : ℚ) (s : State) : State :=
  if s.originalPoints.length < 2 then s
  else computeNext (advanceProgress dt s)

/-- A sequence of `step` calls with the given elapsed times, no
`set_points` in between. -/
def runSteps : List ℚ → State → State
  | [], s => s
  | dt :: rest, s => runSteps rest (stepState dt s)

/-- A call to `step` with elapsed time `dt` crosses a step boundary
when the updated progress reaches 1.0 (and the guard at the top of
`step` did not fire). -/
def crosses (dt : ℚ) (s : State) : Prop :=
  2 ≤ s.originalPoints.length ∧ 1 ≤ s.animationProgress + dt * s.animationSpeed

instance (dt : ℚ) (s : State) : Decidable (crosses dt s) := by
  unfold crosses; exact inferInstance

/-- Number of step boundaries crossed over a sequence of `step`
calls. -/
def boundaryCount : List ℚ → State → ℕ
  | [], _ => 0
  | dt :: rest, s =>
      (if crosses dt s then 1 else 0) + boundaryCount rest (stepState dt s)

/-- The geometric content of a point, colour tag stripped. -/
def Point.pos (p : Point) : ℚ × ℚ := (p.x, p.y)

/-- The invariant maintained by `step`: the step counter stays below
`max_steps = 7`, and at step 0 the current buffer is the original
polyline. -/
def Inv (s : State) : Prop :=
  s.maxSteps = 7 ∧ s.currentStep < 7 ∧
    (s.currentStep = 0 → s.currentPoints = s.originalPoints)

/-! ## NaN-aware model of `set_points`

`set_points` (`src/chaikin.rs` lines 290-299) compares the stored
original with the incoming list using the derived `PartialEq` of
`Point`, i.e. `f64` equality componentwise, under which `NaN != NaN`.
That comparison (and nothing arithmetic) decides its behaviour, so it is
modelled over a coordinate type with an explicit NaN. -/

/-- An `f64` coordinate: NaN, or a (finite) numeric value modelled
exactly. -/
inductive FVal where
  | nan : FVal
  | num : ℚ → FVal
deriving DecidableEq, Repr

/-- IEEE-754 `==` on coordinates: NaN compares unequal to everything,
itself included. -/
def FVal.feq : FVal → FVal → Bool
  | FVal.num a, FVal.num b => a == b
  | _, _ => false

/-- `true` iff the coordinate is not NaN. -/
def FVal.isNum : FVal → Bool
  | FVal.num _ => true
  | FVal.nan => false

/-- `Point` with NaN-aware coordinates. -/
structure PointF where
  x : FVal
  y : FVal
  color : ℕ × ℕ × ℕ
deriving DecidableEq, Repr

/-- The derived `PartialEq` of `Point`: componentwise `f64` equality of
the position, structural equality of the colour. -/
def PointF.feq (p q : PointF) : Bool :=
  p.x.feq q.x && p.y.feq q.y && (p.color == q.color)

/-- `Vec<Point>` equality: equal lengths and elementwise `Point`
equality. -/
def pointsFeq (l l' : List PointF) : Bool :=
  (l.length == l'.length) && (l.zip l').all (fun pr => pr.1.feq pr.2)

/-- A point list is NaN-free when every coordinate is numeric. -/
def nanFree (l : List PointF) : Bool :=
  l.all (fun p => p.x.isNum && p.y.isNum)

/-- The animator state over NaN-aware points (same fields as `State`;
`last_update` omitted as before). -/
structure StateF where
  originalPoints : List PointF
  currentPoints : List PointF
  nextPoints : List PointF
  animationProgress : ℚ
  currentStep : ℕ
  maxSteps : ℕ
  animationSpeed : ℚ
deriving DecidableEq, Repr

/-- `Chaikin::set_points` (`src/chaikin.rs` lines 290-299): full reset
unless the incoming list compares equal (under `f64` equality) to the
stored original. -/
def set_points (s : StateF) (pts : List PointF) : StateF :=
  if pointsFeq s.originalPoints pts then s
  else
    { s with originalPoints := pts,
             currentPoints := pts,
             nextPoints := [],
             animationProgress := 0,
             currentStep := 0 }

/-! ## Helper lemmas -/

theorem chaikinPairs_length (l : List Point) :
    (chaikinPairs l).length = 2 * (l.length - 1) := by
  induction l with
  | nil => simp [chaikinPairs]
  | cons p0 rest ih =>
    cases rest with
    | nil => simp [chaikinPairs]
    | cons p1 rest' =>
      simp only [chaikinPairs, List.length_cons] at ih ⊢
      omega

/-! ## Claims -/

/-- C1 (corrected): on `[(0,0), (10,10)]`, `apply_chaikin` does emit Q
before R and preserve order and endpoint tags, but the Q point of this
segment is `(2.5, 2.5)` and the R point `(7.5, 7.5)`, so the returned
sequence is `[(0,0), (2.5,2.5), (7.5,7.5), (10,10)]`, not the sequence
`[(0,0), (7.5,7.5), (2.5,2.5), (10,10)]` stated in the claim. -/
theorem apply_chaikin_two_point_scenario :
    apply_chaikin [⟨0, 0, (255, 0, 0)⟩, ⟨10, 10, (0, 0, 255)⟩] =
      [⟨0, 0, (255, 0, 0)⟩, ⟨5/2, 5/2, (255, 255, 255)⟩,
       ⟨15/2, 15/2, (255, 255, 255)⟩, ⟨10, 10, (0, 0, 255)⟩] := by
  norm_num [apply_chaikin, chaikinPairs, qPoint, rPoint]

/-- C1, counterexample: the four-point sequence claimed by the spec
(`(7.5,7.5)` before `(2.5,2.5)`) is not what `apply_chaikin` returns on
`[(0,0), (10,10)]`. -/
theorem apply_chaikin_two_point_scenario_spec_order_refuted :
    apply_chaikin [⟨0, 0, (255, 0, 0)⟩, ⟨10, 10, (0, 0, 255)⟩] ≠
      [⟨0, 0, (255, 0, 0)⟩, ⟨15/2, 15/2, (255, 255, 255)⟩,
       ⟨5/2, 5/2, (255, 255, 255)⟩, ⟨10, 10, (0, 0, 255)⟩] := by
  norm_num [apply_chaikin, chaikinPairs, qPoint, rPoint]

/-- C2: `apply_chaikin` returns inputs of length < 2 unchanged, and on
an input of length `n ≥ 2` returns `2*(n-1)+2` points whose first and
last positions are exactly the input's first and last positions. -/
theorem apply_chaikin_length_and_endpoints (points : List Point) :
    (points.length < 2 → apply_chaikin points = points) ∧
    (2 ≤ points.length →
      (apply_chaikin points).length = 2 * (points.length - 1) + 2 ∧
      (apply_chaikin points).head?.map Point.pos = points.head?.map Point.pos ∧
      (apply_chaikin points).getLast?.map Point.pos = points.getLast?.map Point.pos) := by
  constructor
  · intro h
    simp [apply_chaikin, h]
  · intro h
    have hne : ¬ points.length < 2 := by omega
    cases points with
    | nil => simp at h
    | cons a rest =>
      obtain ⟨b, hb⟩ : ∃ b, (a :: rest).getLast? = some b :=
        Option.isSome_iff_exists.mp (by simp [List.getLast?_isSome])
      rw [apply_chaikin, if_neg hne]
      refine ⟨?_, ?_, ?_⟩
      · simp [hb, chaikinPairs_length]
      · simp
      · rw [List.getLast?_append_of_ne_nil]
        · simp [hb]
        · simp [hb]

/-- C2, witness at the concrete input `[(0,0), (4,0), (4,4)]`. -/
theorem apply_chaikin_length_and_endpoints_witness :
    2 ≤ ([⟨0, 0, (255, 255, 255)⟩, ⟨4, 0, (255, 255, 255)⟩,
          ⟨4, 4, (255, 255, 255)⟩] : List Point).length ∧
    ((apply_chaikin [⟨0, 0, (255, 255, 255)⟩, ⟨4, 0, (255, 255, 255)⟩,
        ⟨4, 4, (255, 255, 255)⟩]).length =
      2 * (([⟨0, 0, (255, 255, 255)⟩, ⟨4, 0, (255, 255, 255)⟩,
          ⟨4, 4, (255, 255, 255)⟩] : List Point).length - 1) + 2 ∧
      (apply_chaikin [⟨0, 0, (255, 255, 255)⟩, ⟨4, 0, (255, 255, 255)⟩,
          ⟨4, 4, (255, 255, 255)⟩]).head?.map Point.pos =
        ([⟨0, 0, (255, 255, 255)⟩, ⟨4, 0, (255, 255, 255)⟩,
          ⟨4, 4, (255, 255, 255)⟩] : List Point).head?.map Point.pos ∧
      (apply_chaikin [⟨0, 0, (255, 255, 255)⟩, ⟨4, 0, (255, 255, 255)⟩,
          ⟨4, 4, (255, 255, 255)⟩]).getLast?.map Point.pos =
        ([⟨0, 0, (255, 255, 255)⟩, ⟨4, 0, (255, 255, 255)⟩,
          ⟨4, 4, (255, 255, 255)⟩] : List Point).getLast?.map Point.pos) :=
  ⟨by decide,
   (apply_chaikin_length_and_endpoints
     [⟨0, 0, (255, 255, 255)⟩, ⟨4, 0, (255, 255, 255)⟩,
      ⟨4, 4, (255, 255, 255)⟩]).2 (by decide)⟩

/-- C9: with fewer than 2 original points, `step` returns the original
point list itself — same positions and colour tags, no re-tagging —
and leaves every field of the state unmodified. -/
theorem step_short_input_noop (dt : ℚ) (s : State)
    (h : s.originalPoints.length < 2) :
    stepFull dt s = (s, s.originalPoints) := by
  simp [stepFull, h]

/-- C9, witness at a one-point state. -/
theorem step_short_input_noop_witness :
    (State.new [⟨0, 0, (255, 255, 255)⟩]).originalPoints.length < 2 ∧
    stepFull 1 (State.new [⟨0, 0, (255, 255, 255)⟩]) =
      (State.new [⟨0, 0, (255, 255, 255)⟩], [⟨0, 0, (255, 255, 255)⟩]) :=
  ⟨by decide, step_short_input_noop 1 (State.new [⟨0, 0, (255, 255, 255)⟩]) (by decide)⟩

theorem pointF_feq_self (p : PointF) : p.feq p = (p.x.isNum && p.y.isNum) := by
  obtain ⟨x, y, c⟩ := p
  cases x <;> cases y <;> simp [PointF.feq, FVal.feq, FVal.isNum]

theorem pointsFeq_self (l : List PointF) : pointsFeq l l = nanFree l := by
  induction l with
  | nil => rfl
  | cons p l ih =>
    simp only [pointsFeq, beq_self_eq_true, Bool.true_and] at ih
    simp [pointsFeq, nanFree, pointF_feq_self, ih]

theorem pointF_feq_eq {p q : PointF} (h : p.feq q = true) : p = q := by
  obtain ⟨x, y, c⟩ := p
  obtain ⟨x', y', c'⟩ := q
  cases x <;> cases x' <;> cases y <;> cases y' <;>
    simp_all [PointF.feq, FVal.feq]

theorem pointsFeq_eq : ∀ {l l' : List PointF}, pointsFeq l l' = true → l = l'
  | [], [], _ => rfl
  | [], _ :: _, h => by simp [pointsFeq] at h
  | _ :: _, [], h => by simp [pointsFeq] at h
  | p :: l, q :: l', h => by
    simp only [pointsFeq, List.length_cons, List.zip_cons_cons, List.all_cons,
      Bool.and_eq_true, beq_iff_eq, Nat.add_right_cancel_iff] at h
    obtain ⟨hlen, hpq, hall⟩ := h
    have h1 : p = q := pointF_feq_eq hpq
    have h2 : l = l' := pointsFeq_eq (by simp [pointsFeq, hlen, hall])
    rw [h1, h2]

/-- C4 (amended): on a state whose stored original is NaN-free,
`set_points` with a structurally equal list changes nothing; on any
state, `set_points` with a structurally different list resets the
animator (original and current become the new list, next is cleared,
progress and step return to 0).  The NaN-free restriction on the no-op
half is forced: `Point` equality is `f64` equality, under which a NaN
coordinate is unequal to itself. -/
theorem set_points_spec (s : StateF) (pts : List PointF) :
    (nanFree s.originalPoints = true → pts = s.originalPoints →
      set_points s pts = s) ∧
    (pts ≠ s.originalPoints →
      set_points s pts =
        { s with originalPoints := pts, currentPoints := pts, nextPoints := [],
                 animationProgress := 0, currentStep := 0 }) := by
  constructor
  · intro hnf hpe
    subst hpe
    rw [set_points, if_pos]
    rw [pointsFeq_self]
    exact hnf
  · intro hne
    rw [set_points, if_neg]
    intro hfeq
    exact hne (pointsFeq_eq hfeq).symm

/-- C4, counterexample: a state whose single original point has a NaN
x-coordinate; `set_points` with the very same list (structurally equal)
does not leave the state unchanged — it resets `step` from 3 to 0. -/
theorem set_points_nan_same_list_not_noop :
    set_points
        ⟨[⟨FVal.nan, FVal.num 0, (255, 255, 255)⟩],
         [⟨FVal.nan, FVal.num 0, (255, 255, 255)⟩], [], 0, 3, 7, 1⟩
        [⟨FVal.nan, FVal.num 0, (255, 255, 255)⟩] ≠
      ⟨[⟨FVal.nan, FVal.num 0, (255, 255, 255)⟩],
       [⟨FVal.nan, FVal.num 0, (255, 255, 255)⟩], [], 0, 3, 7, 1⟩ := by
  intro h
  have h3 := congrArg StateF.currentStep h
  simp [set_points, pointsFeq, PointF.feq, FVal.feq] at h3

/-- C4, witness: both halves of the amended claim at concrete inputs —
a NaN-free no-op call, and a reset call with a different list. -/
theorem set_points_spec_witness :
    (nanFree ([⟨FVal.num 1, FVal.num 2, (255, 255, 255)⟩] :
        List PointF) = true ∧
      set_points
          ⟨[⟨FVal.num 1, FVal.num 2, (255, 255, 255)⟩],
           [⟨FVal.num 1, FVal.num 2, (255, 255, 255)⟩], [], 0, 3, 7, 1⟩
          [⟨FVal.num 1, FVal.num 2, (255, 255, 255)⟩] =
        ⟨[⟨FVal.num 1, FVal.num 2, (255, 255, 255)⟩],
         [⟨FVal.num 1, FVal.num 2, (255, 255, 255)⟩], [], 0, 3, 7, 1⟩) ∧
    set_points
        ⟨[⟨FVal.num 1, FVal.num 2, (255, 255, 255)⟩],
         [⟨FVal.num 1, FVal.num 2, (255, 255, 255)⟩], [], 0, 3, 7, 1⟩
        [⟨FVal.num 5, FVal.num 6, (255, 255, 255)⟩] =
      ⟨[⟨FVal.num 5, FVal.num 6, (255, 255, 255)⟩],
       [⟨FVal.num 5, FVal.num 6, (255, 255, 255)⟩], [], 0, 0, 7, 1⟩ :=
  ⟨⟨by decide,
    (set_points_spec
      ⟨[⟨FVal.num 1, FVal.num 2, (255, 255, 255)⟩],
       [⟨FVal.num 1, FVal.num 2, (255, 255, 255)⟩], [], 0, 3, 7, 1⟩
      [⟨FVal.num 1, FVal.num 2, (255, 255, 255)⟩]).1 (by decide) rfl⟩,
   (set_points_spec
      ⟨[⟨FVal.num 1, FVal.num 2, (255, 255, 255)⟩],
       [⟨FVal.num 1, FVal.num 2, (255, 255, 255)⟩], [], 0, 3, 7, 1⟩
      [⟨FVal.num 5, FVal.num 6, (255, 255, 255)⟩]).2 (by decide)⟩

/-- C10: if any stored original point has a NaN coordinate, the
`set_points` debounce never fires — calling it with the stored original
itself (fields bitwise identical) still performs the full reset:
progress and step go to 0 and `next` is cleared, because `Point`
equality is componentwise `f64` equality and `NaN != NaN`. -/
theorem set_points_nan_always_resets (s : StateF)
    (h : nanFree s.originalPoints = false) :
    set_points s s.originalPoints =
      { s with currentPoints := s.originalPoints, nextPoints := [],
               animationProgress := 0, currentStep := 0 } := by
  rw [set_points, if_neg]
  rw [pointsFeq_self, h]
  simp

/-- C10, witness at a concrete one-point NaN state. -/
theorem set_points_nan_always_resets_witness :
    nanFree ([⟨FVal.num 4, FVal.nan, (0, 0, 0)⟩] : List PointF) = false ∧
    set_points
        ⟨[⟨FVal.num 4, FVal.nan, (0, 0, 0)⟩],
         [⟨FVal.num 4, FVal.nan, (0, 0, 0)⟩], [], 0, 5, 7, 1⟩
        [⟨FVal.num 4, FVal.nan, (0, 0, 0)⟩] =
      ⟨[⟨FVal.num 4, FVal.nan, (0, 0, 0)⟩],
       [⟨FVal.num 4, FVal.nan, (0, 0, 0)⟩], [], 0, 0, 7, 1⟩ :=
  ⟨by decide,
   set_points_nan_always_resets
     ⟨[⟨FVal.num 4, FVal.nan, (0, 0, 0)⟩],
      [⟨FVal.num 4, FVal.nan, (0, 0, 0)⟩], [], 0, 5, 7, 1⟩ (by decide)⟩

theorem interpolate_of_length_eq (cur nxt : List Point) (t : ℚ)
    (h1 : cur ≠ []) (h2 : nxt ≠ []) (h : cur.length = nxt.length) :
    interpolate cur nxt t =
      (cur.zip nxt).map (fun pr =>
        ⟨pr.1.x + t * (pr.2.x - pr.1.x), pr.1.y + t * (pr.2.y - pr.1.y),
         pr.1.color⟩) := by
  unfold interpolate
  rw [if_neg (by simp [h1]), if_neg (by simp [h2]), if_neg (by simp [h])]

/-- C5 (amended): in the equal-length case, `interpolate` linearly
interpolates positions elementwise and does not interpolate colours,
but it does not tag the output with a fixed "curve" colour either: each
output point keeps the colour of the corresponding `from` point. -/
theorem interpolate_equal_length_positions_and_colors
    (cur nxt : List Point) (t : ℚ)
    (h1 : cur ≠ []) (h2 : nxt ≠ []) (h : cur.length = nxt.length) :
    (interpolate cur nxt t).map Point.pos =
      (cur.zip nxt).map (fun pr =>
        (pr.1.x + t * (pr.2.x - pr.1.x), pr.1.y + t * (pr.2.y - pr.1.y))) ∧
    (interpolate cur nxt t).map Point.color = cur.map Point.color := by
  rw [interpolate_of_length_eq cur nxt t h1 h2 h]
  constructor
  · simp [List.map_map, Point.pos, Function.comp]
  · have hfst : (cur.zip nxt).map Prod.fst = cur :=
      List.map_fst_zip cur nxt (le_of_eq h)
    calc ((cur.zip nxt).map (fun pr =>
            (⟨pr.1.x + t * (pr.2.x - pr.1.x), pr.1.y + t * (pr.2.y - pr.1.y),
              pr.1.color⟩ : Point))).map Point.color
        = ((cur.zip nxt).map Prod.fst).map Point.color := by
          simp [List.map_map, Function.comp]
      _ = cur.map Point.color := by rw [hfst]

/-- C5, counterexample: an equal-length call whose output carries two
different colour tags (those of the `from` points), so the output is
not tagged with any single fixed colour. -/
theorem interpolate_equal_length_colors_not_fixed :
    (interpolate [⟨0, 0, (9, 2, 3)⟩, ⟨1, 0, (4, 5, 6)⟩]
        [⟨2, 0, (7, 7, 7)⟩, ⟨3, 0, (7, 7, 7)⟩] (1/2)).map Point.color =
      [(9, 2, 3), (4, 5, 6)] ∧
    ((9, 2, 3) : ℕ × ℕ × ℕ) ≠ (4, 5, 6) := by
  constructor
  · norm_num [interpolate]
  · decide

/-- C5, witness: the amended claim at a concrete equal-length input. -/
theorem interpolate_equal_length_witness :
    (interpolate [⟨0, 0, (9, 2, 3)⟩, ⟨1, 1, (4, 5, 6)⟩]
        [⟨2, 2, (7, 7, 7)⟩, ⟨3, 3, (7, 7, 7)⟩] (1/2)).map Point.pos =
      (([⟨0, 0, (9, 2, 3)⟩, ⟨1, 1, (4, 5, 6)⟩] : List Point).zip
        ([⟨2, 2, (7, 7, 7)⟩, ⟨3, 3, (7, 7, 7)⟩] : List Point)).map
          (fun pr : Point × Point =>
            (pr.1.x + (1/2) * (pr.2.x - pr.1.x),
             pr.1.y + (1/2) * (pr.2.y - pr.1.y))) ∧
    (interpolate [⟨0, 0, (9, 2, 3)⟩, ⟨1, 1, (4, 5, 6)⟩]
        [⟨2, 2, (7, 7, 7)⟩, ⟨3, 3, (7, 7, 7)⟩] (1/2)).map Point.color =
      ([⟨0, 0, (9, 2, 3)⟩, ⟨1, 1, (4, 5, 6)⟩] : List Point).map Point.color :=
  interpolate_equal_length_positions_and_colors
    [⟨0, 0, (9, 2, 3)⟩, ⟨1, 1, (4, 5, 6)⟩]
    [⟨2, 2, (7, 7, 7)⟩, ⟨3, 3, (7, 7, 7)⟩] (1/2)
    (by decide) (by decide) (by decide)

theorem getD_zero_head? (l : List Point) (h : l ≠ []) :
    some (l.getD 0 pdef) = l.head? := by
  cases l with
  | nil => exact absurd rfl h
  | cons a t => rfl

theorem getD_last_getLast? (l : List Point) (h : l ≠ []) :
    some (l.getD (l.length - 1) pdef) = l.getLast? := by
  have hlt : l.length - 1 < l.length := by
    have := List.length_pos.mpr h
    omega
  rw [List.getD_eq_getElem l pdef hlt, List.getLast?_eq_getElem? l,
    List.getElem?_eq_getElem hlt]

theorem idpc_head? (cur nxt : List Point) (t : ℚ) :
    (interpolate_different_point_counts cur nxt t).head? =
      some ⟨(cur.getD 0 pdef).x + t * ((nxt.getD 0 pdef).x - (cur.getD 0 pdef).x),
            (cur.getD 0 pdef).y + t * ((nxt.getD 0 pdef).y - (cur.getD 0 pdef).y),
            (255, 255, 255)⟩ := rfl

theorem idpc_getLast? (cur nxt : List Point) (t : ℚ) :
    (interpolate_different_point_counts cur nxt t).getLast? =
      some ⟨(cur.getD (cur.length - 1) pdef).x +
              t * ((nxt.getD (nxt.length - 1) pdef).x -
                   (cur.getD (cur.length - 1) pdef).x),
            (cur.getD (cur.length - 1) pdef).y +
              t * ((nxt.getD (nxt.length - 1) pdef).y -
                   (cur.getD (cur.length - 1) pdef).y),
            (255, 255, 255)⟩ := by
  simp only [interpolate_different_point_counts]
  rw [← List.cons_append, List.getLast?_concat]

theorem idpc_length (cur nxt : List Point) (t : ℚ)
    (h1 : cur ≠ []) (h2 : nxt ≠ []) (h : cur.length ≠ nxt.length) :
    (interpolate_different_point_counts cur nxt t).length =
      max cur.length nxt.length := by
  have hc := List.length_pos.mpr h1
  have hn := List.length_pos.mpr h2
  simp only [interpolate_different_point_counts]
  by_cases hgt : cur.length > nxt.length
  · rw [if_pos hgt]
    simp only [List.length_cons, List.length_append, List.length_map,
      List.length_range', List.length_singleton, List.length_nil]
    omega
  · rw [if_neg hgt]
    simp only [List.length_cons, List.length_append, List.length_map,
      List.length_range', List.length_singleton, List.length_nil]
    omega

theorem interpolate_unfold_ne (A B : List Point) (t : ℚ)
    (h1 : A ≠ []) (h2 : B ≠ []) (h : A.length ≠ B.length) :
    interpolate A B t = interpolate_different_point_counts A B t := by
  unfold interpolate
  rw [if_neg (by simp [h1]), if_neg (by simp [h2]), if_pos h]

/-- C6: when the two point sets are non-empty and of unequal lengths,
the resampling interpolation returns as many points as the denser side,
and its first and last points are the direct linear interpolations of
`from[0]` with `to[0]` and of `from[last]` with `to[last]`. -/
theorem interpolate_diff_counts_shape (cur nxt : List Point) (t : ℚ)
    (h1 : cur ≠ []) (h2 : nxt ≠ []) (h : cur.length ≠ nxt.length) :
    (interpolate_different_point_counts cur nxt t).length =
      max cur.length nxt.length ∧
    (interpolate_different_point_counts cur nxt t).head?.map Point.pos =
      some ((cur.getD 0 pdef).x + t * ((nxt.getD 0 pdef).x - (cur.getD 0 pdef).x),
            (cur.getD 0 pdef).y + t * ((nxt.getD 0 pdef).y - (cur.getD 0 pdef).y)) ∧
    (interpolate_different_point_counts cur nxt t).getLast?.map Point.pos =
      some ((cur.getD (cur.length - 1) pdef).x +
              t * ((nxt.getD (nxt.length - 1) pdef).x -
                   (cur.getD (cur.length - 1) pdef).x),
            (cur.getD (cur.length - 1) pdef).y +
              t * ((nxt.getD (nxt.length - 1) pdef).y -
                   (cur.getD (cur.length - 1) pdef).y)) := by
  refine ⟨idpc_length cur nxt t h1 h2 h, ?_, ?_⟩
  · rw [idpc_head?]
    rfl
  · rw [idpc_getLast?]
    rfl

/-- C6, witness at the 2-point/4-point pair used by the repository's
own tests, `t = 1/2`. -/
theorem interpolate_diff_counts_shape_witness :
    (([⟨0, 0, (255, 255, 255)⟩, ⟨6, 6, (255, 255, 255)⟩] : List Point) ≠ [] ∧
     ([⟨0, 0, (255, 255, 255)⟩, ⟨2, 2, (255, 255, 255)⟩, ⟨4, 4, (255, 255, 255)⟩,
       ⟨6, 6, (255, 255, 255)⟩] : List Point) ≠ [] ∧
     ([⟨0, 0, (255, 255, 255)⟩, ⟨6, 6, (255, 255, 255)⟩] : List Point).length ≠
       ([⟨0, 0, (255, 255, 255)⟩, ⟨2, 2, (255, 255, 255)⟩, ⟨4, 4, (255, 255, 255)⟩,
         ⟨6, 6, (255, 255, 255)⟩] : List Point).length) ∧
    (interpolate_different_point_counts
        [⟨0, 0, (255, 255, 255)⟩, ⟨6, 6, (255, 255, 255)⟩]
        [⟨0, 0, (255, 255, 255)⟩, ⟨2, 2, (255, 255, 255)⟩, ⟨4, 4, (255, 255, 255)⟩,
         ⟨6, 6, (255, 255, 255)⟩] (1/2)).length = 4 := by
  refine ⟨⟨by decide, by decide, by decide⟩, ?_⟩
  have hshape := interpolate_diff_counts_shape
    [⟨0, 0, (255, 255, 255)⟩, ⟨6, 6, (255, 255, 255)⟩]
    [⟨0, 0, (255, 255, 255)⟩, ⟨2, 2, (255, 255, 255)⟩, ⟨4, 4, (255, 255, 255)⟩,
     ⟨6, 6, (255, 255, 255)⟩] (1/2) (by decide) (by decide) (by decide)
  exact hshape.1

/-- C7: in the resampling used for unequal lengths, every bracket index
computed from a normalized interior position is in bounds for the
sparser side, and when the two bracketing normalized indices coincide
the local interpolation fraction is 0 by the guard rather than computed
by division. -/
theorem bracket_indices_safe (sparse : List Point) (denseLen i : ℕ)
    (hs : sparse ≠ []) (hd : 2 ≤ denseLen) (hi1 : 1 ≤ i)
    (hi2 : i ≤ denseLen - 2) :
    bracketIdx (normPos i denseLen) sparse.length < sparse.length ∧
    bracketIdx2 (normPos i denseLen) sparse.length < sparse.length ∧
    (normPos (bracketIdx (normPos i denseLen) sparse.length) sparse.length =
        normPos (bracketIdx2 (normPos i denseLen) sparse.length) sparse.length →
      localT (normPos i denseLen) sparse.length = 0) := by
  have hslen : 1 ≤ sparse.length := List.length_pos.mpr hs
  have hden : (0 : ℚ) < ((denseLen - 1 : ℕ) : ℚ) := by
    exact_mod_cast Nat.pos_of_ne_zero (by omega)
  have hpos0 : 0 ≤ normPos i denseLen :=
    div_nonneg (Nat.cast_nonneg i) (Nat.cast_nonneg _)
  have hpos1 : normPos i denseLen < 1 := by
    rw [normPos, div_lt_one hden]
    exact_mod_cast (by omega : i < denseLen - 1)
  have hb1 : bracketIdx (normPos i denseLen) sparse.length < sparse.length := by
    unfold bracketIdx
    have hlt : normPos i denseLen * ((sparse.length - 1 : ℕ) : ℚ) <
        ((sparse.length : ℕ) : ℚ) := by
      calc normPos i denseLen * ((sparse.length - 1 : ℕ) : ℚ)
          ≤ 1 * ((sparse.length - 1 : ℕ) : ℚ) :=
            mul_le_mul_of_nonneg_right (le_of_lt hpos1) (Nat.cast_nonneg _)
        _ = ((sparse.length - 1 : ℕ) : ℚ) := one_mul _
        _ < ((sparse.length : ℕ) : ℚ) := by
            exact_mod_cast Nat.sub_lt (by omega) one_pos
    have hfl : ⌊normPos i denseLen * ((sparse.length - 1 : ℕ) : ℚ)⌋ <
        (sparse.length : ℤ) := Int.floor_lt.mpr (by exact_mod_cast hlt)
    omega
  refine ⟨hb1, ?_, ?_⟩
  · unfold bracketIdx2
    exact lt_of_le_of_lt (min_le_right _ _) (by omega)
  · intro hpp
    simp only [localT]
    rw [hpp, if_neg (lt_irrefl _)]

/-- C7, witness: dense side of length 4, sparse side of length 2,
interior index 1. -/
theorem bracket_indices_safe_witness :
    (([⟨0, 0, (255, 255, 255)⟩, ⟨6, 6, (255, 255, 255)⟩] : List Point) ≠ [] ∧
      2 ≤ 4 ∧ 1 ≤ 1 ∧ 1 ≤ 4 - 2) ∧
    (bracketIdx (normPos 1 4)
        ([⟨0, 0, (255, 255, 255)⟩, ⟨6, 6, (255, 255, 255)⟩] : List Point).length <
      ([⟨0, 0, (255, 255, 255)⟩, ⟨6, 6, (255, 255, 255)⟩] : List Point).length ∧
     bracketIdx2 (normPos 1 4)
        ([⟨0, 0, (255, 255, 255)⟩, ⟨6, 6, (255, 255, 255)⟩] : List Point).length <
      ([⟨0, 0, (255, 255, 255)⟩, ⟨6, 6, (255, 255, 255)⟩] : List Point).length ∧
     (normPos (bracketIdx (normPos 1 4)
          ([⟨0, 0, (255, 255, 255)⟩, ⟨6, 6, (255, 255, 255)⟩] : List Point).length)
        ([⟨0, 0, (255, 255, 255)⟩, ⟨6, 6, (255, 255, 255)⟩] : List Point).length =
        normPos (bracketIdx2 (normPos 1 4)
          ([⟨0, 0, (255, 255, 255)⟩, ⟨6, 6, (255, 255, 255)⟩] : List Point).length)
        ([⟨0, 0, (255, 255, 255)⟩, ⟨6, 6, (255, 255, 255)⟩] : List Point).length →
      localT (normPos 1 4)
        ([⟨0, 0, (255, 255, 255)⟩, ⟨6, 6, (255, 255, 255)⟩] : List Point).length = 0)) :=
  ⟨⟨by decide, by decide, by decide, by decide⟩,
   bracket_indices_safe [⟨0, 0, (255, 255, 255)⟩, ⟨6, 6, (255, 255, 255)⟩] 4 1
     (by decide) (by decide) (by decide) (by decide)⟩

theorem interpolate_zero_positions (A B : List Point)
    (h1 : A ≠ []) (h2 : B ≠ []) (h : A.length = B.length) :
    (interpolate A B 0).map Point.pos = A.map Point.pos := by
  rw [interpolate_of_length_eq A B 0 h1 h2 h, List.map_map]
  have hfun : (Point.pos ∘ fun pr : Point × Point =>
      (⟨pr.1.x + 0 * (pr.2.x - pr.1.x), pr.1.y + 0 * (pr.2.y - pr.1.y),
        pr.1.color⟩ : Point)) = Point.pos ∘ Prod.fst := by
    funext pr
    simp [Point.pos, Function.comp]
  rw [hfun, ← List.map_map, List.map_fst_zip A B (le_of_eq h)]

theorem interpolate_one_positions (A B : List Point)
    (h1 : A ≠ []) (h2 : B ≠ []) (h : A.length = B.length) :
    (interpolate A B 1).map Point.pos = B.map Point.pos := by
  rw [interpolate_of_length_eq A B 1 h1 h2 h, List.map_map]
  have hfun : (Point.pos ∘ fun pr : Point × Point =>
      (⟨pr.1.x + 1 * (pr.2.x - pr.1.x), pr.1.y + 1 * (pr.2.y - pr.1.y),
        pr.1.color⟩ : Point)) = Point.pos ∘ Prod.snd := by
    funext pr
    simp [Point.pos, Function.comp, Prod.ext_iff]
  rw [hfun, ← List.map_map, List.map_snd_zip A B (le_of_eq h.symm)]

/-- C8: `interpolate(A, B, 0)` reproduces A's positions in the
equal-length case and A's endpoints always; `interpolate(A, B, 1)`
reproduces B's positions in the equal-length case and B's endpoints
always. -/
theorem interpolate_endpoint_reproduction (A B : List Point)
    (h1 : A ≠ []) (h2 : B ≠ []) :
    (A.length = B.length →
      (interpolate A B 0).map Point.pos = A.map Point.pos ∧
      (interpolate A B 1).map Point.pos = B.map Point.pos) ∧
    (interpolate A B 0).head?.map Point.pos = A.head?.map Point.pos ∧
    (interpolate A B 0).getLast?.map Point.pos = A.getLast?.map Point.pos ∧
    (interpolate A B 1).head?.map Point.pos = B.head?.map Point.pos ∧
    (interpolate A B 1).getLast?.map Point.pos = B.getLast?.map Point.pos := by
  refine ⟨fun h => ⟨interpolate_zero_positions A B h1 h2 h,
    interpolate_one_positions A B h1 h2 h⟩, ?_, ?_, ?_, ?_⟩
  all_goals by_cases heq : A.length = B.length
  · have hz := congrArg List.head? (interpolate_zero_positions A B h1 h2 heq)
    rwa [List.head?_map, List.head?_map] at hz
  · rw [interpolate_unfold_ne A B 0 h1 h2 heq, idpc_head?, ← getD_zero_head? A h1]
    simp [Point.pos]
  · have hz := congrArg List.getLast? (interpolate_zero_positions A B h1 h2 heq)
    rwa [List.getLast?_map, List.getLast?_map] at hz
  · rw [interpolate_unfold_ne A B 0 h1 h2 heq, idpc_getLast?,
      ← getD_last_getLast? A h1]
    simp [Point.pos]
  · have hz := congrArg List.head? (interpolate_one_positions A B h1 h2 heq)
    rwa [List.head?_map, List.head?_map] at hz
  · rw [interpolate_unfold_ne A B 1 h1 h2 heq, idpc_head?, ← getD_zero_head? B h2]
    simp [Point.pos, Prod.ext_iff]
  · have hz := congrArg List.getLast? (interpolate_one_positions A B h1 h2 heq)
    rwa [List.getLast?_map, List.getLast?_map] at hz
  · rw [interpolate_unfold_ne A B 1 h1 h2 heq, idpc_getLast?,
      ← getD_last_getLast? B h2]
    simp [Point.pos, Prod.ext_iff]

/-- C8, witness at an unequal-length pair. -/
theorem interpolate_endpoint_reproduction_witness :
    (([⟨0, 0, (255, 255, 255)⟩, ⟨6, 6, (255, 255, 255)⟩] : List Point) ≠ [] ∧
     ([⟨0, 0, (255, 255, 255)⟩, ⟨2, 0, (255, 255, 255)⟩, ⟨6, 2, (255, 255, 255)⟩] :
        List Point) ≠ []) ∧
    (interpolate [⟨0, 0, (255, 255, 255)⟩, ⟨6, 6, (255, 255, 255)⟩]
        [⟨0, 0, (255, 255, 255)⟩, ⟨2, 0, (255, 255, 255)⟩, ⟨6, 2, (255, 255, 255)⟩]
        0).head?.map Point.pos =
      ([⟨0, 0, (255, 255, 255)⟩, ⟨6, 6, (255, 255, 255)⟩] :
        List Point).head?.map Point.pos ∧
    (interpolate [⟨0, 0, (255, 255, 255)⟩, ⟨6, 6, (255, 255, 255)⟩]
        [⟨0, 0, (255, 255, 255)⟩, ⟨2, 0, (255, 255, 255)⟩, ⟨6, 2, (255, 255, 255)⟩]
        1).getLast?.map Point.pos =
      ([⟨0, 0, (255, 255, 255)⟩, ⟨2, 0, (255, 255, 255)⟩, ⟨6, 2, (255, 255, 255)⟩] :
        List Point).getLast?.map Point.pos := by
  have hrep := interpolate_endpoint_reproduction
    [⟨0, 0, (255, 255, 255)⟩, ⟨6, 6, (255, 255, 255)⟩]
    [⟨0, 0, (255, 255, 255)⟩, ⟨2, 0, (255, 255, 255)⟩, ⟨6, 2, (255, 255, 255)⟩]
    (by decide) (by decide)
  exact ⟨⟨by decide, by decide⟩, hrep.2.1, hrep.2.2.2.2⟩

theorem advanceProgress_original (dt : ℚ) (s : State) :
    (advanceProgress dt s).originalPoints = s.originalPoints := by
  simp only [advanceProgress]
  split <;> rfl

theorem computeNext_original (s : State) :
    (computeNext s).originalPoints = s.originalPoints := by
  unfold computeNext
  split_ifs <;> rfl

theorem stepState_original (dt : ℚ) (s : State) :
    (stepState dt s).originalPoints = s.originalPoints := by
  unfold stepState
  split
  · rfl
  · rw [computeNext_original, advanceProgress_original]

theorem advanceProgress_maxSteps (dt : ℚ) (s : State) :
    (advanceProgress dt s).maxSteps = s.maxSteps := by
  simp only [advanceProgress]
  split <;> rfl

theorem computeNext_currentStep (s : State) :
    (computeNext s).currentStep = s.currentStep := by
  unfold computeNext
  split_ifs <;> rfl

theorem advanceProgress_currentStep (dt : ℚ) (s : State) :
    (advanceProgress dt s).currentStep =
      if 1 ≤ s.animationProgress + dt * s.animationSpeed then
        (s.currentStep + 1) % s.maxSteps
      else s.currentStep := by
  simp only [advanceProgress]
  by_cases hp : 1 ≤ s.animationProgress + dt * s.animationSpeed
  · rw [if_pos hp, if_pos hp]
  · rw [if_neg hp, if_neg hp]

theorem stepState_currentStep (dt : ℚ) (s : State) :
    (stepState dt s).currentStep =
      if crosses dt s then (s.currentStep + 1) % s.maxSteps
      else s.currentStep := by
  unfold stepState
  by_cases hl : s.originalPoints.length < 2
  · rw [if_pos hl, if_neg (fun c : crosses dt s => by
      have := c.1
      omega)]
  · rw [if_neg hl, computeNext_currentStep, advanceProgress_currentStep]
    by_cases hp : 1 ≤ s.animationProgress + dt * s.animationSpeed
    · have hc : crosses dt s := ⟨by omega, hp⟩
      rw [if_pos hp, if_pos hc]
    · have hc : ¬ crosses dt s := fun c => hp c.2
      rw [if_neg hp, if_neg hc]

theorem Inv_new (pts : List Point) : Inv (State.new pts) :=
  ⟨rfl, by norm_num [State.new], fun _ => rfl⟩

theorem Inv_stepState (dt : ℚ) (s : State) (h : Inv s) : Inv (stepState dt s) := by
  obtain ⟨hm, hlt, hJ⟩ := h
  unfold stepState
  by_cases hl : s.originalPoints.length < 2
  · rw [if_pos hl]
    exact ⟨hm, hlt, hJ⟩
  · rw [if_neg hl]
    by_cases hp : 1 ≤ s.animationProgress + dt * s.animationSpeed
    · have hs1 : advanceProgress dt s =
          { s with animationProgress := 0,
                   currentStep := (s.currentStep + 1) % s.maxSteps,
                   currentPoints := s.nextPoints,
                   nextPoints := [] } := by
        simp only [advanceProgress]
        rw [if_pos hp]
      rw [hs1]
      unfold computeNext
      simp only [List.isEmpty_nil, if_true]
      by_cases h0 : (s.currentStep + 1) % s.maxSteps = 0
      · rw [if_pos h0]
        refine ⟨hm, ?_, fun _ => rfl⟩
        simp only [h0]
        omega
      · rw [if_neg h0]
        split_ifs <;>
          exact ⟨hm, by simp only; rw [hm] at *; omega, fun hc => absurd hc h0⟩
    · have hs1 : advanceProgress dt s =
          { s with animationProgress :=
              s.animationProgress + dt * s.animationSpeed } := by
        simp only [advanceProgress]
        rw [if_neg hp]
      rw [hs1]
      unfold computeNext
      by_cases hne : s.nextPoints.isEmpty
      · simp only [hne, if_true]
        by_cases h0 : s.currentStep = 0
        · rw [if_pos h0]
          exact ⟨hm, hlt, fun _ => rfl⟩
        · rw [if_neg h0]
          split_ifs <;> exact ⟨hm, hlt, fun hc => absurd hc h0⟩
      · simp only [hne, if_false]
        exact ⟨hm, hlt, hJ⟩

theorem runSteps_original (dts : List ℚ) : ∀ s : State,
    (runSteps dts s).originalPoints = s.originalPoints := by
  induction dts with
  | nil => intro s; rfl
  | cons dt rest ih =>
    intro s
    rw [runSteps, ih, stepState_original]

theorem Inv_runSteps (dts : List ℚ) : ∀ s : State, Inv s → Inv (runSteps dts s) := by
  induction dts with
  | nil => intro s h; exact h
  | cons dt rest ih =>
    intro s h
    exact ih (stepState dt s) (Inv_stepState dt s h)

theorem runSteps_currentStep (dts : List ℚ) : ∀ s : State, Inv s →
    (runSteps dts s).currentStep % 7 =
      (s.currentStep + boundaryCount dts s) % 7 := by
  induction dts with
  | nil =>
    intro s h
    simp [runSteps, boundaryCount]
  | cons dt rest ih =>
    intro s h
    simp only [runSteps, boundaryCount]
    rw [ih (stepState dt s) (Inv_stepState dt s h), stepState_currentStep]
    by_cases hc : crosses dt s
    · rw [if_pos hc, if_pos hc, h.1]
      omega
    · rw [if_neg hc, if_neg hc]
      omega

/-- C3: starting from `new points` with at least 2 control points, after
any sequence of `step` calls in which exactly `max_steps = 7` step
boundaries are crossed (progress reaching 1.0 seven times) and with no
intervening `set_points`, the current point buffer equals the original
control-point list again. -/
theorem cycle_returns_to_original (pts : List Point) (dts : List ℚ)
    (hlen : 2 ≤ pts.length)
    (hbc : boundaryCount dts (State.new pts) = 7) :
    (runSteps dts (State.new pts)).currentPoints = pts := by
  have hInv := Inv_runSteps dts (State.new pts) (Inv_new pts)
  have hstep := runSteps_currentStep dts (State.new pts) (Inv_new pts)
  rw [hbc] at hstep
  have hc0 : (State.new pts).currentStep = 0 := rfl
  rw [hc0] at hstep
  have hlt := hInv.2.1
  have h0 : (runSteps dts (State.new pts)).currentStep = 0 := by omega
  have hcur := hInv.2.2 h0
  rw [hcur, runSteps_original]
  rfl

/-- C3, witness: two control points, seven unit-time `step` calls, each
crossing one boundary. -/
theorem cycle_returns_to_original_witness :
    2 ≤ ([⟨0, 0, (255, 255, 255)⟩, ⟨1, 1, (255, 255, 255)⟩] : List Point).length ∧
    boundaryCount [1, 1, 1, 1, 1, 1, 1]
      (State.new [⟨0, 0, (255, 255, 255)⟩, ⟨1, 1, (255, 255, 255)⟩]) = 7 ∧
    (runSteps [1, 1, 1, 1, 1, 1, 1]
      (State.new [⟨0, 0, (255, 255, 255)⟩, ⟨1, 1, (255, 255, 255)⟩])).currentPoints =
      [⟨0, 0, (255, 255, 255)⟩, ⟨1, 1, (255, 255, 255)⟩] :=
  ⟨by decide,
   by norm_num [boundaryCount, crosses, stepState, advanceProgress, computeNext,
     State.new, apply_chaikin, chaikinPairs, qPoint, rPoint],
   cycle_returns_to_original
     [⟨0, 0, (255, 255, 255)⟩, ⟨1, 1, (255, 255, 255)⟩] [1, 1, 1, 1, 1, 1, 1]
     (by decide)
     (by norm_num [boundaryCount, crosses, stepState, advanceProgress, computeNext,
       State.new, apply_chaikin, chaikinPairs, qPoint, rPoint])⟩

end Chaikin
